import Mathlib

/-!
Shallow embedding of the QuiteOk (QOI) image decoder of `pkg/qoi/decoder.go`.

Bytes are modelled as `Nat`; well-formed sources have every entry `< 256`,
and 8-bit Go arithmetic is written with explicit `% 256`.  The `io.Reader`
byte source is a `List Nat` read with the semantics of Go's `bytes.Reader`:
a `Read` into a slice of length `k` copies `min k src.length` bytes and
reports an error (`io.EOF`) exactly when the source is empty.  The scratch
buffer `buf` of `decodePixels` is part of the decoder state because a short
read leaves stale bytes in it, which the Go code then consumes.

The Go file defining the package constants (`Magic`, the op-code bytes,
`startPixel`, `zeroPixel`, `hashPix`, `eof`, and the error values) is not
part of the sources; those leaf definitions are modelled from the spec and
are marked as such.  All control flow is translated from `decoder.go`.
-/

namespace QOI

/-- A pixel: four 8-bit channels red, green, blue, alpha (Go `[4]uint8`),
stored as `Nat` with explicit mod-256 arithmetic. -/
structure Pix where
  r : Nat
  g : Nat
  b : Nat
  a : Nat
  deriving DecidableEq, Repr

/-- Modelled from the spec: package constant `startPixel`, the initial
"last pixel" (0,0,0,255); its defining Go file is not under src. -/
def startPixel : Pix := ⟨0, 0, 0, 255⟩

/-- Modelled from the spec: package constant `zeroPixel` (0,0,0,0), the
initial content of every History Cache slot. -/
def zeroPixel : Pix := ⟨0, 0, 0, 0⟩

/-- Modelled from the spec: package function `hashPix`,
hash(r,g,b,a) = (r·3 + g·5 + b·7 + a·11) mod 64. -/
def hashPix (p : Pix) : Nat := (p.r * 3 + p.g * 5 + p.b * 7 + p.a * 11) % 64

/-- Modelled from the spec: op-code byte for a literal RGB pixel (0xFE). -/
def opRgb : Nat := 0xFE

/-- Modelled from the spec: op-code byte for a literal RGBA pixel (0xFF). -/
def opRgba : Nat := 0xFF

/-- Modelled from the spec: mask selecting the top two bits of a byte. -/
def op2Mask : Nat := 0xC0

/-- Modelled from the spec: two-bit tag 00 (INDEX op). -/
def opIndex : Nat := 0x00

/-- Modelled from the spec: two-bit tag 01 (DIFF op). -/
def opDiff : Nat := 0x40

/-- Modelled from the spec: two-bit tag 10 (LUMA op). -/
def opLuma : Nat := 0x80

/-- Modelled from the spec: two-bit tag 11 (RUN op). -/
def opRun : Nat := 0xC0

/-- Modelled from the spec: the 4 magic header bytes, ASCII "qoif". -/
def magicBytes : List Nat := [113, 111, 105, 102]

/-- Modelled from the spec: the 8-byte end marker, seven 0x00 then 0x01. -/
def eofBytes : List Nat := [0, 0, 0, 0, 0, 0, 0, 1]

/-- Error kinds of the decoder.  `unexpectedEnd` stands for the read errors
(`io.EOF` / `io.ErrUnexpectedEOF`) a byte-slice source produces when it is
exhausted; the other three are the package's named error values, modelled
from the spec. -/
inductive QoiErr where
  | invalidMagic
  | unexpectedEnd
  | invalidRunLength
  | invalidEOF
  deriving DecidableEq, Repr

/-- Write the bytes `xs` into `l` at consecutive positions starting at `i`
(the effect of `copy(buf[i:], xs)` on the scratch buffer). -/
def writeSeq : List Nat → Nat → List Nat → List Nat
  | l, _, [] => l
  | l, i, x :: xs => writeSeq (l.set i x) (i + 1) xs

/-- One Go `r.Read(buf[start:start+k])` call on a byte-slice source:
copies `min k src.length` bytes into `buf` at `start` and returns the
updated buffer and remaining source; `none` (io.EOF) exactly when the
source is empty.  A short read fills only a prefix of the slice. -/
def readN (buf : List Nat) (start k : Nat) (src : List Nat) :
    Option (List Nat × List Nat) :=
  match src with
  | [] => none
  | _ :: _ => some (writeSeq buf start (src.take k), src.drop k)

/-- `buf[i]` on the byte buffer (in the Go code all indexing is in range). -/
def bget (l : List Nat) (i : Nat) : Nat := l.getD i 0

/-- `seen[i]` on the History Cache (in the Go code all indexing is in
range: the cache has 64 slots and INDEX bytes are below 64). -/
def pget (l : List Pix) (i : Nat) : Pix := l.getD i zeroPixel

/-- The state of `decodePixels` between two pixel positions: the "last
pixel" pointer, the pending run counter, the 64-slot History Cache `seen`,
the 8-byte scratch buffer `buf`, and the remaining byte source. -/
structure St where
  last : Pix
  run : Nat
  seen : List Pix
  buf : List Nat
  src : List Nat
  deriving DecidableEq, Repr

/-- One iteration of the pixel loop body of `decodePixels` (`decoder.go`
lines 57-129): either continue a pending run, or read and dispatch one
op-code byte.  Returns the pixel written at the current position and the
successor state. -/
def decodePixel (st : St) : Except QoiErr (Pix × St) :=
  if st.run > 0 then
    .ok (st.last, { st with run := st.run - 1 })
  else
    match readN st.buf 0 1 st.src with
    | none => .error .unexpectedEnd
    | some (buf1, src1) =>
      let b0 := bget buf1 0
      if b0 = opRgb then
        match readN buf1 1 3 src1 with
        | none => .error .unexpectedEnd
        | some (buf2, src2) =>
          let p : Pix := ⟨bget buf2 1, bget buf2 2, bget buf2 3, st.last.a⟩
          .ok (p, ⟨p, st.run, st.seen.set (hashPix p) p, buf2, src2⟩)
      else if b0 = opRgba then
        match readN buf1 1 4 src1 with
        | none => .error .unexpectedEnd
        | some (buf2, src2) =>
          let p : Pix := ⟨bget buf2 1, bget buf2 2, bget buf2 3, bget buf2 4⟩
          .ok (p, ⟨p, st.run, st.seen.set (hashPix p) p, buf2, src2⟩)
      else if b0 &&& op2Mask = opIndex then
        let p := pget st.seen b0
        .ok (p, ⟨p, st.run, st.seen, buf1, src1⟩)
      else if b0 &&& op2Mask = opDiff then
        let p : Pix :=
          ⟨((st.last.r + ((b0 >>> 4) &&& 0x3)) % 256 + 254) % 256,
           ((st.last.g + ((b0 >>> 2) &&& 0x3)) % 256 + 254) % 256,
           ((st.last.b + ((b0 >>> 0) &&& 0x3)) % 256 + 254) % 256,
           st.last.a⟩
        .ok (p, ⟨p, st.run, st.seen.set (hashPix p) p, buf1, src1⟩)
      else if b0 &&& op2Mask = opLuma then
        match readN buf1 1 1 src1 with
        | none => .error .unexpectedEnd
        | some (buf2, src2) =>
          let b1 := bget buf2 1
          let dg := ((b0 &&& 0b00111111) + 224) % 256
          let dr := ((((b1 &&& 0b11110000) >>> 4) + 248) % 256 + dg) % 256
          let db := ((((b1 &&& 0b00001111) >>> 0) + 248) % 256 + dg) % 256
          let p : Pix :=
            ⟨(st.last.r + dr) % 256, (st.last.g + dg) % 256,
             (st.last.b + db) % 256, st.last.a⟩
          .ok (p, ⟨p, st.run, st.seen.set (hashPix p) p, buf2, src2⟩)
      else if b0 &&& op2Mask = opRun then
        let rn := ((b0 &&& 0b00111111) + 1) % 256
        if 62 < rn ∨ rn < 1 then
          .error .invalidRunLength
        else
          .ok (st.last, ⟨st.last, rn - 1, st.seen, buf1, src1⟩)
      else
        .ok (zeroPixel, ⟨st.last, st.run, st.seen, buf1, src1⟩)

/-- The pixel loop of `decodePixels`: the Go double loop over
`y < height`, `x < width` visits `width * height` positions in row-major
order; `n` counts the positions still to fill. -/
def decodeLoop : Nat → St → List Pix → Except QoiErr (List Pix × St)
  | 0, st, acc => .ok (acc.reverse, st)
  | n + 1, st, acc =>
    match decodePixel st with
    | .error e => .error e
    | .ok (p, st') => decodeLoop n st' (p :: acc)

/-- The end-marker check of `decodePixels` (`decoder.go` lines 133-139):
one `r.Read(buf)` of the 8-byte buffer, then compare against `eof`. -/
def eofCheck (st : St) : Except QoiErr Unit :=
  match readN st.buf 0 8 st.src with
  | none => .error .unexpectedEnd
  | some (buf1, _) =>
    if buf1 = eofBytes then .ok () else .error .invalidEOF

/-- The initial decoder state (`decoder.go` lines 45-51). -/
def initSt (src : List Nat) : St :=
  ⟨startPixel, 0, List.replicate 64 zeroPixel, List.replicate 8 0, src⟩

/-- `decodePixels`: run the pixel loop over all positions, then validate
the end marker; the populated buffer is returned only on full success. -/
def decodePixels (src : List Nat) (w h : Nat) : Except QoiErr (List Pix) :=
  match decodeLoop (w * h) (initSt src) [] with
  | .error e => .error e
  | .ok (pixels, st) =>
    match eofCheck st with
    | .error e => .error e
    | .ok _ => .ok pixels

/-- Big-endian 32-bit word from four bytes (`binary.BigEndian.Uint32`). -/
def beU32 (b0 b1 b2 b3 : Nat) : Nat := ((b0 * 256 + b1) * 256 + b2) * 256 + b3

/-- The image config extracted from the header: width and height. -/
structure Config where
  width : Nat
  height : Nat
  deriving DecidableEq, Repr

/-- `DecodeConfig`: read the 14-byte header via `io.ReadAtLeast` (which
fails with an exhaustion error when fewer than 14 bytes are available),
validate the magic bytes, and parse width and height big-endian;
channel-count and colorspace bytes (positions 12 and 13) are read and
discarded.  Also returns the remaining source, which `Decode` continues
from. -/
def DecodeConfig (src : List Nat) : Except QoiErr (Config × List Nat) :=
  match src with
  | b0 :: b1 :: b2 :: b3 :: b4 :: b5 :: b6 :: b7 ::
      b8 :: b9 :: b10 :: b11 :: _b12 :: _b13 :: rest =>
    if [b0, b1, b2, b3] = magicBytes then
      .ok (⟨beU32 b4 b5 b6 b7, beU32 b8 b9 b10 b11⟩, rest)
    else .error .invalidMagic
  | _ => .error .unexpectedEnd

/-- `Decode`: header parse, then pixel decode on the remaining bytes. -/
def Decode (src : List Nat) : Except QoiErr (List Pix) :=
  match DecodeConfig src with
  | .error e => .error e
  | .ok (conf, rest) => decodePixels rest conf.width conf.height

theorem writeSeq_length (xs l : List Nat) (i : Nat) :
    (writeSeq l i xs).length = l.length := by
  induction xs generalizing l i with
  | nil => rfl
  | cons x xs ih => simp [writeSeq, ih, List.length_set]

theorem bget_set_self (l : List Nat) (i x : Nat) (h : i < l.length) :
    bget (l.set i x) i = x := by
  simp [bget, List.getD_eq_getElem?_getD, List.getElem?_set_self h]

theorem readN_one (buf : List Nat) (s b : Nat) (src : List Nat) :
    readN buf s 1 (b :: src) = some (buf.set s b, src) := rfl

/-- A pixel position reached while the run counter is positive copies the
last pixel, decrements the counter, and consumes no bytes. -/
theorem decodePixel_runCont (st : St) (h : 0 < st.run) :
    decodePixel st = .ok (st.last, { st with run := st.run - 1 }) := by
  unfold decodePixel
  rw [if_pos h]

/-- Reading the op-code byte from an exhausted source fails. -/
theorem decodePixel_srcNil (st : St) (hrun : st.run = 0) (hsrc : st.src = []) :
    decodePixel st = .error .unexpectedEnd := by
  unfold decodePixel
  simp only [hrun, hsrc, gt_iff_lt, lt_self_iff_false, if_false, readN]

/-- The RGB op: three extra bytes (read with Go short-read semantics into
the scratch buffer), alpha taken from the last pixel, cache updated. -/
theorem decodePixel_rgb (st : St) (rest : List Nat)
    (hrun : st.run = 0) (hsrc : st.src = 254 :: rest)
    (hbuf : st.buf.length = 8) :
    decodePixel st =
      match rest with
      | [] => .error .unexpectedEnd
      | _ :: _ =>
        let buf2 := writeSeq (st.buf.set 0 254) 1 (rest.take 3)
        let p : Pix := ⟨bget buf2 1, bget buf2 2, bget buf2 3, st.last.a⟩
        .ok (p, ⟨p, 0, st.seen.set (hashPix p) p, buf2, rest.drop 3⟩) := by
  have h0 : bget (st.buf.set 0 254) 0 = 254 :=
    bget_set_self st.buf 0 254 (by omega)
  unfold decodePixel
  simp only [hrun, hsrc, gt_iff_lt, lt_self_iff_false, if_false, readN_one,
    h0, opRgb, eq_self_iff_true, if_true]
  cases rest with
  | nil => rfl
  | cons x xs => rfl

/-- The RGBA op: four extra bytes, all channels from the stream, cache
updated. -/
theorem decodePixel_rgba (st : St) (rest : List Nat)
    (hrun : st.run = 0) (hsrc : st.src = 255 :: rest)
    (hbuf : st.buf.length = 8) :
    decodePixel st =
      match rest with
      | [] => .error .unexpectedEnd
      | _ :: _ =>
        let buf2 := writeSeq (st.buf.set 0 255) 1 (rest.take 4)
        let p : Pix := ⟨bget buf2 1, bget buf2 2, bget buf2 3, bget buf2 4⟩
        .ok (p, ⟨p, 0, st.seen.set (hashPix p) p, buf2, rest.drop 4⟩) := by
  have h0 : bget (st.buf.set 0 255) 0 = 255 :=
    bget_set_self st.buf 0 255 (by omega)
  unfold decodePixel
  simp only [hrun, hsrc, gt_iff_lt, lt_self_iff_false, if_false, readN_one,
    h0, opRgb, opRgba, eq_self_iff_true, if_true]
  cases rest with
  | nil => rfl
  | cons x xs => rfl

/-- The INDEX op: no extra bytes, pixel copied from the History Cache slot
addressed by the op-code byte itself, cache unchanged. -/
theorem decodePixel_index (st : St) (b0 : Nat) (rest : List Nat)
    (hrun : st.run = 0) (hsrc : st.src = b0 :: rest)
    (hbuf : st.buf.length = 8) (hop : b0 &&& 192 = 0) :
    decodePixel st =
      .ok (pget st.seen b0,
        ⟨pget st.seen b0, 0, st.seen, st.buf.set 0 b0, rest⟩) := by
  have h254 : b0 ≠ 254 := by intro h; rw [h] at hop; exact absurd hop (by decide)
  have h255 : b0 ≠ 255 := by intro h; rw [h] at hop; exact absurd hop (by decide)
  have h0 : bget (st.buf.set 0 b0) 0 = b0 :=
    bget_set_self st.buf 0 b0 (by omega)
  unfold decodePixel
  simp only [hrun, hsrc, gt_iff_lt, lt_self_iff_false, if_false, readN_one,
    h0, opRgb, opRgba, op2Mask, opIndex]
  rw [if_neg h254, if_neg h255, if_pos hop]

/-- The DIFF op: no extra bytes, each color channel moved by the 2-bit
deltas minus 2 with 8-bit wraparound, alpha unchanged, cache updated. -/
theorem decodePixel_diff (st : St) (b0 : Nat) (rest : List Nat)
    (hrun : st.run = 0) (hsrc : st.src = b0 :: rest)
    (hbuf : st.buf.length = 8) (hop : b0 &&& 192 = 64) :
    decodePixel st =
      (let p : Pix :=
        ⟨((st.last.r + ((b0 >>> 4) &&& 0x3)) % 256 + 254) % 256,
         ((st.last.g + ((b0 >>> 2) &&& 0x3)) % 256 + 254) % 256,
         ((st.last.b + ((b0 >>> 0) &&& 0x3)) % 256 + 254) % 256,
         st.last.a⟩
      .ok (p, ⟨p, 0, st.seen.set (hashPix p) p, st.buf.set 0 b0, rest⟩)) := by
  have h254 : b0 ≠ 254 := by intro h; rw [h] at hop; exact absurd hop (by decide)
  have h255 : b0 ≠ 255 := by intro h; rw [h] at hop; exact absurd hop (by decide)
  have h0 : bget (st.buf.set 0 b0) 0 = b0 :=
    bget_set_self st.buf 0 b0 (by omega)
  unfold decodePixel
  simp only [hrun, hsrc, gt_iff_lt, lt_self_iff_false, if_false, readN_one,
    h0, opRgb, opRgba, op2Mask, opIndex, opDiff]
  rw [if_neg h254, if_neg h255, if_neg (by rw [hop]; decide), if_pos hop]

/-- The LUMA op: one extra byte, green delta from the op-code byte, red and
blue deltas from the extra byte relative to the green delta, all with 8-bit
wraparound, alpha unchanged, cache updated. -/
theorem decodePixel_luma (st : St) (b0 b1 : Nat) (rest : List Nat)
    (hrun : st.run = 0) (hsrc : st.src = b0 :: b1 :: rest)
    (hbuf : st.buf.length = 8) (hop : b0 &&& 192 = 128) :
    decodePixel st =
      (let dg := ((b0 &&& 63) + 224) % 256
       let dr := ((((b1 &&& 240) >>> 4) + 248) % 256 + dg) % 256
       let db := ((((b1 &&& 15) >>> 0) + 248) % 256 + dg) % 256
       let p : Pix :=
         ⟨(st.last.r + dr) % 256, (st.last.g + dg) % 256,
          (st.last.b + db) % 256, st.last.a⟩
       .ok (p, ⟨p, 0, st.seen.set (hashPix p) p,
         (st.buf.set 0 b0).set 1 b1, rest⟩)) := by
  have h254 : b0 ≠ 254 := by intro h; rw [h] at hop; exact absurd hop (by decide)
  have h255 : b0 ≠ 255 := by intro h; rw [h] at hop; exact absurd hop (by decide)
  have h0 : bget (st.buf.set 0 b0) 0 = b0 :=
    bget_set_self st.buf 0 b0 (by omega)
  have h1 : bget ((st.buf.set 0 b0).set 1 b1) 1 = b1 :=
    bget_set_self (st.buf.set 0 b0) 1 b1 (by simp [List.length_set]; omega)
  unfold decodePixel
  simp only [hrun, hsrc, gt_iff_lt, lt_self_iff_false, if_false, readN_one,
    h0, h1, opRgb, opRgba, op2Mask, opIndex, opDiff, opLuma]
  rw [if_neg h254, if_neg h255, if_neg (by rw [hop]; decide),
    if_neg (by rw [hop]; decide), if_pos hop]

/-- The RUN op: no extra bytes; the run length is decoded from the low six
bits, range-checked, the current pixel repeats the last pixel, and the
cache is untouched. -/
theorem decodePixel_runOp (st : St) (b0 : Nat) (rest : List Nat)
    (hrun : st.run = 0) (hsrc : st.src = b0 :: rest)
    (hbuf : st.buf.length = 8)
    (h254 : b0 ≠ 254) (h255 : b0 ≠ 255) (hop : b0 &&& 192 = 192) :
    decodePixel st =
      (if 62 < ((b0 &&& 63) + 1) % 256 ∨ ((b0 &&& 63) + 1) % 256 < 1 then
        .error .invalidRunLength
       else
        .ok (st.last,
          ⟨st.last, ((b0 &&& 63) + 1) % 256 - 1, st.seen, st.buf.set 0 b0, rest⟩)) := by
  have h0 : bget (st.buf.set 0 b0) 0 = b0 :=
    bget_set_self st.buf 0 b0 (by omega)
  unfold decodePixel
  simp only [hrun, hsrc, gt_iff_lt, lt_self_iff_false, if_false, readN_one,
    h0, opRgb, opRgba, op2Mask, opIndex, opDiff, opLuma, opRun]
  rw [if_neg h254, if_neg h255, if_neg (by rw [hop]; decide),
    if_neg (by rw [hop]; decide), if_neg (by rw [hop]; decide), if_pos hop]

/-- The LUMA op at the end of the stream: the read of the extra byte
fails. -/
theorem decodePixel_lumaNil (st : St) (b0 : Nat)
    (hrun : st.run = 0) (hsrc : st.src = [b0])
    (hbuf : st.buf.length = 8) (hop : b0 &&& 192 = 128) :
    decodePixel st = .error .unexpectedEnd := by
  have h254 : b0 ≠ 254 := by intro h; rw [h] at hop; exact absurd hop (by decide)
  have h255 : b0 ≠ 255 := by intro h; rw [h] at hop; exact absurd hop (by decide)
  have h0 : bget (st.buf.set 0 b0) 0 = b0 :=
    bget_set_self st.buf 0 b0 (by omega)
  unfold decodePixel
  simp only [hrun, hsrc, gt_iff_lt, lt_self_iff_false, if_false, readN_one,
    h0, opRgb, opRgba, op2Mask, opIndex, opDiff, opLuma]
  rw [if_neg h254, if_neg h255, if_neg (by rw [hop]; decide),
    if_neg (by rw [hop]; decide), if_pos hop]
  rfl

/-- The dead dispatch branch (no case of the Go switch matches): the pixel
position keeps its zero initialization and the state is otherwise
unchanged; unreachable for byte inputs since the two top bits always match
one of the four tags. -/
theorem decodePixel_other (st : St) (b0 : Nat) (rest : List Nat)
    (hrun : st.run = 0) (hsrc : st.src = b0 :: rest)
    (hbuf : st.buf.length = 8)
    (h254 : b0 ≠ 254) (h255 : b0 ≠ 255)
    (h0t : b0 &&& 192 ≠ 0) (h64 : b0 &&& 192 ≠ 64)
    (h128 : b0 &&& 192 ≠ 128) (h192 : b0 &&& 192 ≠ 192) :
    decodePixel st =
      .ok (zeroPixel, ⟨st.last, 0, st.seen, st.buf.set 0 b0, rest⟩) := by
  have h0 : bget (st.buf.set 0 b0) 0 = b0 :=
    bget_set_self st.buf 0 b0 (by omega)
  unfold decodePixel
  simp only [hrun, hsrc, gt_iff_lt, lt_self_iff_false, if_false, readN_one,
    h0, opRgb, opRgba, op2Mask, opIndex, opDiff, opLuma, opRun]
  rw [if_neg h254, if_neg h255, if_neg h0t, if_neg h64, if_neg h128,
    if_neg h192]

/-- A stream that opens with the magic bytes and a full 14-byte header
decodes as `decodePixels` on the rest, at the big-endian width and
height. -/
theorem Decode_header (b4 b5 b6 b7 b8 b9 b10 b11 ch cs : Nat)
    (rest : List Nat) :
    Decode (magicBytes ++ [b4, b5, b6, b7, b8, b9, b10, b11, ch, cs] ++ rest) =
      decodePixels rest (beU32 b4 b5 b6 b7) (beU32 b8 b9 b10 b11) := rfl

set_option maxRecDepth 100000 in
/-- C1: a stream with the "qoif" header, width 1 and height 1, any
channel-count and colorspace bytes, a single RGBA op 0xFF,10,20,30,255 and
the correct 8-byte end marker decodes successfully to the single pixel
(10,20,30,255). -/
theorem decode_one_rgba_pixel (ch cs : Nat) :
    Decode (magicBytes ++ [0, 0, 0, 1, 0, 0, 0, 1, ch, cs] ++
        ([0xFF, 10, 20, 30, 255] ++ eofBytes)) =
      .ok [⟨10, 20, 30, 255⟩] := by
  rw [Decode_header]
  rfl

/-- C7: the decoder is deterministic — running `Decode` on byte-identical
input streams yields identical results, both on success and on failure. -/
theorem decode_deterministic (s1 s2 : List Nat) (h : s1 = s2) :
    Decode s1 = Decode s2 := by rw [h]

/-- Witness for C7 at a concrete input. -/
theorem decode_deterministic_witness :
    Decode [113, 111, 105, 102] = Decode [113, 111, 105, 102] :=
  decode_deterministic [113, 111, 105, 102] [113, 111, 105, 102] rfl

/-- Counterexample to C4 as stated: the op-code byte 0x3F has low six bits
equal to 63, yet the decode of this stream does not fail with
`InvalidRunLength` — the byte is dispatched as an INDEX op (slot 63, which
still holds the zero pixel) and the decode succeeds. -/
theorem low6_63_byte_decodes_ok :
    63 &&& 63 = 63 ∧
      Decode (magicBytes ++ [0, 0, 0, 1, 0, 0, 0, 1, 4, 0] ++
          ([63] ++ eofBytes)) = .ok [⟨0, 0, 0, 0⟩] :=
  ⟨rfl, rfl⟩

/-- C5, behaviour of the code at the failing input: a valid header for a
0×0 image followed by only seven bytes of the end marker.  The Go code's
bare `r.Read(buf)` performs a short read and leaves the stale byte 0 at
`buf[7]`, so the comparison against the end marker fails and the decode
returns `InvalidEOF` instead of the `UnexpectedEnd` the claim requires. -/
theorem truncated_end_marker_gives_invalid_eof :
    Decode (magicBytes ++ [0, 0, 0, 0, 0, 0, 0, 0, 3, 0] ++
        [0, 0, 0, 0, 0, 0, 0]) = .error .invalidEOF := rfl

/-- C9: when the pending run counter covers all remaining pixel positions,
the pixel loop fills every remaining position with the last pixel, consumes
no further bytes from the source, terminates without error, and the surplus
run count is silently discarded (the state keeps only the decremented
counter, which is never validated again). -/
theorem run_surplus_discarded (n : Nat) (st : St) (acc : List Pix)
    (h : n ≤ st.run) :
    decodeLoop n st acc =
      .ok (acc.reverse ++ List.replicate n st.last, { st with run := st.run - n }) := by
  induction n generalizing st acc with
  | zero => simp [decodeLoop]
  | succ n ih =>
    have hr : 0 < st.run := lt_of_lt_of_le (Nat.succ_pos n) h
    have hstep : decodePixel st = .ok (st.last, { st with run := st.run - 1 }) := by
      unfold decodePixel
      rw [if_pos hr]
    have h' : n ≤ st.run - 1 := by omega
    rw [decodeLoop, hstep]
    show decodeLoop n { st with run := st.run - 1 } (st.last :: acc) = _
    rw [ih _ _ h']
    simp [List.replicate_succ, List.append_assoc]
    omega

/-- Witness for C9: a loop over 2 remaining positions with pending run 5
fills both with the last pixel, discards the surplus, and touches nothing
else. -/
theorem run_surplus_discarded_witness :
    decodeLoop 2 ⟨⟨1, 2, 3, 4⟩, 5, [], [], [9, 9]⟩ [] =
      .ok ([⟨1, 2, 3, 4⟩, ⟨1, 2, 3, 4⟩], ⟨⟨1, 2, 3, 4⟩, 3, [], [], [9, 9]⟩) := by
  have h := run_surplus_discarded 2 ⟨⟨1, 2, 3, 4⟩, 5, [], [], [9, 9]⟩ [] (by decide)
  simpa using h

set_option maxRecDepth 4000 in
theorem and240_shift4 : ∀ b < 256, (b &&& 240) >>> 4 = (b >>> 4) &&& 15 := by
  decide

set_option maxRecDepth 4000 in
theorem and63_eq_self_of_top00 : ∀ b < 256, b &&& 192 = 0 → b &&& 63 = b := by
  decide

set_option maxRecDepth 4000 in
theorem low6_63_enum :
    ∀ b < 256, b &&& 63 = 63 → b = 63 ∨ b = 127 ∨ b = 191 ∨ b = 255 := by
  decide

set_option maxRecDepth 4000 in
theorem run_range_always_ok :
    ∀ b < 256, b &&& 192 = 192 → b ≠ 254 → b ≠ 255 →
      ¬(62 < ((b &&& 63) + 1) % 256 ∨ ((b &&& 63) + 1) % 256 < 1) := by
  decide

/-- C2: only the RGB, RGBA, DIFF, and LUMA ops mutate the History Cache,
each writing exactly the pixel it just produced at slot
(r·3 + g·5 + b·7 + a·11) mod 64; the INDEX op, the RUN op, and
run-continuation steps leave every cache slot unchanged. -/
theorem cache_write_discipline (st : St) (p : Pix) (st' : St)
    (hbuf : st.buf.length = 8)
    (h : decodePixel st = .ok (p, st')) :
    (0 < st.run → st'.seen = st.seen) ∧
    (st.run = 0 → ∀ b0 rest, st.src = b0 :: rest →
      (((b0 = 254 ∨ b0 = 255) ∨
          (b0 ≠ 254 ∧ b0 ≠ 255 ∧ (b0 &&& 192 = 64 ∨ b0 &&& 192 = 128))) →
        st'.seen = st.seen.set ((p.r * 3 + p.g * 5 + p.b * 7 + p.a * 11) % 64) p) ∧
      ((b0 ≠ 254 ∧ b0 ≠ 255 ∧ (b0 &&& 192 = 0 ∨ b0 &&& 192 = 192)) →
        st'.seen = st.seen)) := by
  constructor
  · intro hr
    rw [decodePixel_runCont st hr] at h
    simp only [Except.ok.injEq, Prod.mk.injEq] at h
    rw [← h.2]
  · intro hrun b0 rest hsrc
    constructor
    · rintro ((hb | hb) | ⟨h254, h255, hop | hop⟩)
      · subst hb
        rw [decodePixel_rgb st rest hrun hsrc hbuf] at h
        cases rest with
        | nil => cases h
        | cons x xs =>
          simp only [Except.ok.injEq, Prod.mk.injEq] at h
          obtain ⟨hp, hst⟩ := h
          subst hp
          subst hst
          simp [hashPix]
      · subst hb
        rw [decodePixel_rgba st rest hrun hsrc hbuf] at h
        cases rest with
        | nil => cases h
        | cons x xs =>
          simp only [Except.ok.injEq, Prod.mk.injEq] at h
          obtain ⟨hp, hst⟩ := h
          subst hp
          subst hst
          simp [hashPix]
      · rw [decodePixel_diff st b0 rest hrun hsrc hbuf hop] at h
        simp only [Except.ok.injEq, Prod.mk.injEq] at h
        obtain ⟨hp, hst⟩ := h
        subst hp
        subst hst
        simp [hashPix]
      · cases rest with
        | nil =>
          rw [decodePixel_lumaNil st b0 hrun hsrc hbuf hop] at h
          cases h
        | cons b1 rest' =>
          rw [decodePixel_luma st b0 b1 rest' hrun hsrc hbuf hop] at h
          simp only [Except.ok.injEq, Prod.mk.injEq] at h
          obtain ⟨hp, hst⟩ := h
          subst hp
          subst hst
          simp [hashPix]
    · rintro ⟨h254, h255, hop | hop⟩
      · rw [decodePixel_index st b0 rest hrun hsrc hbuf hop] at h
        simp only [Except.ok.injEq, Prod.mk.injEq] at h
        rw [← h.2]
      · rw [decodePixel_runOp st b0 rest hrun hsrc hbuf h254 h255 hop] at h
        by_cases hc : 62 < ((b0 &&& 63) + 1) % 256 ∨ ((b0 &&& 63) + 1) % 256 < 1
        · rw [if_pos hc] at h
          cases h
        · rw [if_neg hc] at h
          simp only [Except.ok.injEq, Prod.mk.injEq] at h
          rw [← h.2]

def c2St : St :=
  ⟨startPixel, 0, List.replicate 64 zeroPixel, List.replicate 8 0, [254, 1, 2, 3]⟩

def c2St' : St :=
  ⟨⟨1, 2, 3, 255⟩, 0, (List.replicate 64 zeroPixel).set 23 ⟨1, 2, 3, 255⟩,
    [254, 1, 2, 3, 0, 0, 0, 0], []⟩

/-- Witness for C2: an RGB op writes the produced pixel (1,2,3,255) into
cache slot (1·3 + 2·5 + 3·7 + 255·11) mod 64 = 23. -/
theorem cache_write_discipline_witness :
    c2St'.seen = c2St.seen.set ((1 * 3 + 2 * 5 + 3 * 7 + 255 * 11) % 64) ⟨1, 2, 3, 255⟩ :=
  ((cache_write_discipline c2St ⟨1, 2, 3, 255⟩ c2St' rfl rfl).2 rfl 254 [1, 2, 3]
      rfl).1 (Or.inl (Or.inl rfl))

/-- C3: the LUMA op produces, from last pixel (r,g,b,a) and bytes b0, b1,
the pixel (r+dr, g+dg, b+db, a) where dg = (b0 & 0x3F) − 32,
dr = ((b1 >> 4) & 0xF) − 8 + dg, db = (b1 & 0xF) − 8 + dg, every channel
operation taken modulo 256 (− 32 is + 224 and − 8 is + 248 in mod-256
arithmetic), and alpha unchanged. -/
theorem luma_op_deltas (st : St) (b0 b1 : Nat) (rest : List Nat) (p : Pix)
    (st' : St)
    (hrun : st.run = 0) (hsrc : st.src = b0 :: b1 :: rest)
    (hbuf : st.buf.length = 8) (hop : b0 &&& 192 = 128) (hb1 : b1 < 256)
    (h : decodePixel st = .ok (p, st')) :
    p.r = (st.last.r + ((((b1 >>> 4) &&& 15) + 248 + ((b0 &&& 63) + 224) % 256) % 256)) % 256 ∧
    p.g = (st.last.g + ((b0 &&& 63) + 224) % 256) % 256 ∧
    p.b = (st.last.b + (((b1 &&& 15) + 248 + ((b0 &&& 63) + 224) % 256) % 256)) % 256 ∧
    p.a = st.last.a := by
  rw [decodePixel_luma st b0 b1 rest hrun hsrc hbuf hop] at h
  simp only [Except.ok.injEq, Prod.mk.injEq] at h
  obtain ⟨hp, _⟩ := h
  subst hp
  dsimp only
  refine ⟨?_, rfl, ?_, rfl⟩
  · rw [and240_shift4 b1 hb1, Nat.mod_add_mod]
  · rw [Nat.shiftRight_zero, Nat.mod_add_mod]

/-- Witness for C3 at last pixel (10,20,30,40), op byte 161, extra byte
90: the produced pixel is (8,21,33,40). -/
theorem luma_op_deltas_witness :
    (8 : Nat) = (10 + ((((90 >>> 4) &&& 15) + 248 + ((161 &&& 63) + 224) % 256) % 256)) % 256 ∧
    (21 : Nat) = (20 + ((161 &&& 63) + 224) % 256) % 256 ∧
    (33 : Nat) = (30 + (((90 &&& 15) + 248 + ((161 &&& 63) + 224) % 256) % 256)) % 256 ∧
    (40 : Nat) = (40 : Nat) := by
  exact luma_op_deltas ⟨⟨10, 20, 30, 40⟩, 0, [], List.replicate 8 0, [161, 90]⟩
    161 90 [] ⟨8, 21, 33, 40⟩
    ⟨⟨8, 21, 33, 40⟩, 0, [], [161, 90, 0, 0, 0, 0, 0, 0], []⟩
    rfl rfl rfl (by decide) (by decide) rfl

/-- C6: an INDEX op-code byte (top two bits 00) produces exactly the
History Cache entry at slot byte & 0x3F as it stands when the op-code is
read, this pixel becomes the new last pixel, the cache is unchanged, and
no extra bytes are consumed. -/
theorem index_op_reads_cache (st : St) (b0 : Nat) (rest : List Nat)
    (hrun : st.run = 0) (hsrc : st.src = b0 :: rest)
    (hbuf : st.buf.length = 8) (hop : b0 &&& 192 = 0) (hb : b0 < 256) :
    decodePixel st =
      .ok (pget st.seen (b0 &&& 63),
        ⟨pget st.seen (b0 &&& 63), 0, st.seen, st.buf.set 0 b0, rest⟩) := by
  rw [and63_eq_self_of_top00 b0 hb hop]
  exact decodePixel_index st b0 rest hrun hsrc hbuf hop

/-- Witness for C6: INDEX byte 5 copies cache slot 5 (holding (7,7,7,7))
and consumes only the op-code byte. -/
theorem index_op_reads_cache_witness :
    decodePixel ⟨startPixel, 0,
        (List.replicate 64 zeroPixel).set 5 ⟨7, 7, 7, 7⟩,
        List.replicate 8 0, [5, 9]⟩ =
      .ok (⟨7, 7, 7, 7⟩,
        ⟨⟨7, 7, 7, 7⟩, 0, (List.replicate 64 zeroPixel).set 5 ⟨7, 7, 7, 7⟩,
          (List.replicate 8 0).set 0 5, [9]⟩) := by
  exact index_op_reads_cache _ 5 [9] rfl rfl rfl (by decide) (by decide)

/-- C4 (amended): an op-code byte whose low six bits equal 63 never
reaches the RUN case — it is 0x3F (INDEX), 0x7F (DIFF), 0xBF (LUMA) or
0xFF (RGBA, captured by the earlier literal case) — so the decode step
never fails with InvalidRunLength on such a byte. -/
theorem low6_63_step_never_invalid_run_length (st : St) (b0 : Nat)
    (rest : List Nat)
    (hrun : st.run = 0) (hsrc : st.src = b0 :: rest)
    (hbuf : st.buf.length = 8) (hb : b0 < 256) (h63 : b0 &&& 63 = 63) :
    decodePixel st ≠ .error .invalidRunLength := by
  rcases low6_63_enum b0 hb h63 with hv | hv | hv | hv <;> subst hv
  · rw [decodePixel_index st 63 rest hrun hsrc hbuf (by decide)]
    simp
  · rw [decodePixel_diff st 127 rest hrun hsrc hbuf (by decide)]
    simp
  · cases rest with
    | nil =>
      rw [decodePixel_lumaNil st 191 hrun hsrc hbuf (by decide)]
      simp
    | cons b1 rest' =>
      rw [decodePixel_luma st 191 b1 rest' hrun hsrc hbuf (by decide)]
      simp
  · rw [decodePixel_rgba st rest hrun hsrc hbuf]
    cases rest with
    | nil => simp
    | cons x xs => simp

/-- Witness for C4 (amended) at the op-code byte 63. -/
theorem low6_63_step_never_invalid_run_length_witness :
    decodePixel ⟨startPixel, 0, List.replicate 64 zeroPixel,
        List.replicate 8 0, [63]⟩ ≠ .error .invalidRunLength :=
  low6_63_step_never_invalid_run_length _ 63 [] rfl rfl rfl (by decide)
    (by decide)

/-- No single decode step can fail with InvalidRunLength when the pending
bytes are in fact bytes: the only op-codes dispatched to the RUN case have
low six bits at most 61, so the range check always passes. -/
theorem decodePixel_ne_invalidRunLength (st : St)
    (hbuf : st.buf.length = 8) (hb : ∀ b, b ∈ st.src → b < 256) :
    decodePixel st ≠ .error .invalidRunLength := by
  by_cases hr : 0 < st.run
  · rw [decodePixel_runCont st hr]
    simp
  · have hrun : st.run = 0 := by omega
    cases hsrc : st.src with
    | nil =>
      rw [decodePixel_srcNil st hrun hsrc]
      simp
    | cons b0 rest =>
      have hb0 : b0 < 256 := hb b0 (by rw [hsrc]; exact List.mem_cons_self b0 rest)
      by_cases h254 : b0 = 254
      · subst h254
        rw [decodePixel_rgb st rest hrun hsrc hbuf]
        cases rest with
        | nil => simp
        | cons x xs => simp
      · by_cases h255 : b0 = 255
        · subst h255
          rw [decodePixel_rgba st rest hrun hsrc hbuf]
          cases rest with
          | nil => simp
          | cons x xs => simp
        · by_cases h0t : b0 &&& 192 = 0
          · rw [decodePixel_index st b0 rest hrun hsrc hbuf h0t]
            simp
          · by_cases h64 : b0 &&& 192 = 64
            · rw [decodePixel_diff st b0 rest hrun hsrc hbuf h64]
              simp
            · by_cases h128 : b0 &&& 192 = 128
              · cases rest with
                | nil =>
                  rw [decodePixel_lumaNil st b0 hrun hsrc hbuf h128]
                  simp
                | cons b1 rest' =>
                  rw [decodePixel_luma st b0 b1 rest' hrun hsrc hbuf h128]
                  simp
              · by_cases h192 : b0 &&& 192 = 192
                · rw [decodePixel_runOp st b0 rest hrun hsrc hbuf h254 h255 h192]
                  rw [if_neg (run_range_always_ok b0 hb0 h192 h254 h255)]
                  simp
                · rw [decodePixel_other st b0 rest hrun hsrc hbuf h254 h255
                    h0t h64 h128 h192]
                  simp

/-- A successful decode step keeps the scratch buffer at 8 bytes and only
ever continues with a suffix of the source bytes. -/
theorem decodePixel_preserves (st : St) (p : Pix) (st' : St)
    (hbuf : st.buf.length = 8) (h : decodePixel st = .ok (p, st')) :
    st'.buf.length = 8 ∧ ∀ b, b ∈ st'.src → b ∈ st.src := by
  by_cases hr : 0 < st.run
  · rw [decodePixel_runCont st hr] at h
    simp only [Except.ok.injEq, Prod.mk.injEq] at h
    rw [← h.2]
    exact ⟨hbuf, fun b hbm => hbm⟩
  · have hrun : st.run = 0 := by omega
    cases hsrc : st.src with
    | nil =>
      rw [decodePixel_srcNil st hrun hsrc] at h
      cases h
    | cons b0 rest =>
      have hlen1 : (st.buf.set 0 b0).length = 8 := by
        rw [List.length_set]
        exact hbuf
      have hsub : ∀ b, b ∈ rest → b ∈ b0 :: rest := by
        intro b hbm
        exact List.mem_cons_of_mem b0 hbm
      by_cases h254 : b0 = 254
      · subst h254
        rw [decodePixel_rgb st rest hrun hsrc hbuf] at h
        cases rest with
        | nil => cases h
        | cons x xs =>
          simp only [Except.ok.injEq, Prod.mk.injEq] at h
          rw [← h.2]
          refine ⟨?_, ?_⟩
          · rw [writeSeq_length]
            exact hlen1
          · intro b hbm
            exact hsub b (List.drop_subset 3 (x :: xs) hbm)
      · by_cases h255 : b0 = 255
        · subst h255
          rw [decodePixel_rgba st rest hrun hsrc hbuf] at h
          cases rest with
          | nil => cases h
          | cons x xs =>
            simp only [Except.ok.injEq, Prod.mk.injEq] at h
            rw [← h.2]
            refine ⟨?_, ?_⟩
            · rw [writeSeq_length]
              exact hlen1
            · intro b hbm
              exact hsub b (List.drop_subset 4 (x :: xs) hbm)
        · by_cases h0t : b0 &&& 192 = 0
          · rw [decodePixel_index st b0 rest hrun hsrc hbuf h0t] at h
            simp only [Except.ok.injEq, Prod.mk.injEq] at h
            rw [← h.2]
            exact ⟨hlen1, hsub⟩
          · by_cases h64 : b0 &&& 192 = 64
            · rw [decodePixel_diff st b0 rest hrun hsrc hbuf h64] at h
              simp only [Except.ok.injEq, Prod.mk.injEq] at h
              rw [← h.2]
              exact ⟨hlen1, hsub⟩
            · by_cases h128 : b0 &&& 192 = 128
              · cases rest with
                | nil =>
                  rw [decodePixel_lumaNil st b0 hrun hsrc hbuf h128] at h
                  cases h
                | cons b1 rest' =>
                  rw [decodePixel_luma st b0 b1 rest' hrun hsrc hbuf h128] at h
                  simp only [Except.ok.injEq, Prod.mk.injEq] at h
                  rw [← h.2]
                  refine ⟨?_, ?_⟩
                  · rw [List.length_set]
                    exact hlen1
                  · intro b hbm
                    exact hsub b (List.mem_cons_of_mem b1 hbm)
              · by_cases h192 : b0 &&& 192 = 192
                · rw [decodePixel_runOp st b0 rest hrun hsrc hbuf h254 h255
                    h192] at h
                  by_cases hc : 62 < ((b0 &&& 63) + 1) % 256 ∨
                      ((b0 &&& 63) + 1) % 256 < 1
                  · rw [if_pos hc] at h
                    cases h
                  · rw [if_neg hc] at h
                    simp only [Except.ok.injEq, Prod.mk.injEq] at h
                    rw [← h.2]
                    exact ⟨hlen1, hsub⟩
                · rw [decodePixel_other st b0 rest hrun hsrc hbuf h254 h255
                    h0t h64 h128 h192] at h
                  simp only [Except.ok.injEq, Prod.mk.injEq] at h
                  rw [← h.2]
                  exact ⟨hlen1, hsub⟩

/-- The pixel loop never fails with InvalidRunLength on byte inputs. -/
theorem decodeLoop_ne_invalidRunLength (n : Nat) (st : St) (acc : List Pix)
    (hbuf : st.buf.length = 8) (hb : ∀ b, b ∈ st.src → b < 256) :
    decodeLoop n st acc ≠ .error .invalidRunLength := by
  induction n generalizing st acc with
  | zero => simp [decodeLoop]
  | succ n ih =>
    cases hstep : decodePixel st with
    | error e =>
      have hred : decodeLoop (n + 1) st acc = .error e := by
        rw [decodeLoop, hstep]
      rw [hred]
      intro hcon
      injection hcon with he
      exact decodePixel_ne_invalidRunLength st hbuf hb (by rw [hstep, he])
    | ok pr =>
      obtain ⟨p, st'⟩ := pr
      have hpres := decodePixel_preserves st p st' hbuf hstep
      have hred : decodeLoop (n + 1) st acc = decodeLoop n st' (p :: acc) := by
        rw [decodeLoop, hstep]
      rw [hred]
      exact ih st' (p :: acc) hpres.1 (fun b hbm => hb b (hpres.2 b hbm))

/-- The end-marker check can only fail with UnexpectedEnd or InvalidEOF. -/
theorem eofCheck_ne_invalidRunLength (st : St) :
    eofCheck st ≠ .error .invalidRunLength := by
  unfold eofCheck
  cases readN st.buf 0 8 st.src with
  | none => simp
  | some pr =>
    obtain ⟨buf1, rest⟩ := pr
    show (if buf1 = eofBytes then (Except.ok () : Except QoiErr Unit)
        else Except.error QoiErr.invalidEOF) ≠ Except.error QoiErr.invalidRunLength
    by_cases hc : buf1 = eofBytes
    · rw [if_pos hc]
      simp
    · rw [if_neg hc]
      simp

/-- `decodePixels` never fails with InvalidRunLength on byte inputs. -/
theorem decodePixels_ne_invalidRunLength (src : List Nat) (w h : Nat)
    (hb : ∀ b, b ∈ src → b < 256) :
    decodePixels src w h ≠ .error .invalidRunLength := by
  intro hcon
  unfold decodePixels at hcon
  cases hloop : decodeLoop (w * h) (initSt src) [] with
  | error e =>
    rw [hloop] at hcon
    injection hcon with he
    exact decodeLoop_ne_invalidRunLength (w * h) (initSt src) [] rfl hb
      (by rw [hloop, he])
  | ok pr =>
    obtain ⟨pixels, st⟩ := pr
    rw [hloop] at hcon
    replace hcon : (match eofCheck st with
        | Except.error e => (Except.error e : Except QoiErr (List Pix))
        | Except.ok _ => Except.ok pixels) =
        Except.error QoiErr.invalidRunLength := hcon
    cases hEnd : eofCheck st with
    | error e =>
      rw [hEnd] at hcon
      injection hcon with he
      exact eofCheck_ne_invalidRunLength st (by rw [hEnd, he])
    | ok u =>
      rw [hEnd] at hcon
      cases hcon

/-- The header parse either fails with UnexpectedEnd or InvalidMagic, or
succeeds, handing pixel decoding a suffix of the input bytes. -/
theorem DecodeConfig_cases (src : List Nat) :
    DecodeConfig src = .error .unexpectedEnd ∨
    DecodeConfig src = .error .invalidMagic ∨
    ∃ conf rest, DecodeConfig src = .ok (conf, rest) ∧
      ∀ b, b ∈ rest → b ∈ src := by
  unfold DecodeConfig
  split
  · split
    · right
      right
      refine ⟨_, _, rfl, ?_⟩
      intro b hbm
      simp only [List.mem_cons]
      tauto
    · right
      left
      rfl
  · left
    rfl

/-- C8: the InvalidRunLength branch is unreachable — every op-code byte
that reaches the RUN case (top two bits 11 and not 0xFE or 0xFF, which the
earlier RGB and RGBA cases capture) has low six bits in [0,61], so the run
length (byte & 0x3F) + 1 lies in [1,62] and `Decode` never returns an
InvalidRunLength error on any byte input. -/
theorem decode_never_invalidRunLength (src : List Nat)
    (hb : ∀ b, b ∈ src → b < 256) :
    Decode src ≠ .error .invalidRunLength := by
  unfold Decode
  rcases DecodeConfig_cases src with hcfg | hcfg | ⟨conf, rest, hcfg, hsub⟩ <;>
    rw [hcfg]
  · simp
  · simp
  · exact decodePixels_ne_invalidRunLength rest conf.width conf.height
      (fun b hbm => hb b (hsub b hbm))

/-- Witness for C8 at a concrete byte stream (which even contains a RUN
op-code). -/
theorem decode_never_invalidRunLength_witness :
    Decode (magicBytes ++ [0, 0, 0, 2, 0, 0, 0, 1, 4, 0] ++
        ([0xFE, 1, 2, 3, 0xC0] ++ eofBytes)) ≠ .error .invalidRunLength := by
  refine decode_never_invalidRunLength _ ?_
  intro b hbm
  simp [magicBytes, eofBytes] at hbm
  rcases hbm with h | h | h | h | h | h | h | h | h | h | h | h <;> omega

/-- The end-marker check on the pristine all-zero scratch buffer: it
succeeds exactly when the next 8 bytes are the end marker; an empty source
gives UnexpectedEnd; otherwise — including a short read, whose stale zero
at position 7 can never match the marker byte 0x01 — InvalidEOF. -/
theorem eofCheck_init (src : List Nat) :
    eofCheck (initSt src) =
      if src.take 8 = eofBytes then .ok ()
      else if src = [] then .error .unexpectedEnd
      else .error .invalidEOF := by
  rcases src with _ | ⟨a1, src⟩
  · rfl
  rcases src with _ | ⟨a2, src⟩
  · show (if ([a1, 0, 0, 0, 0, 0, 0, 0] : List Nat) = eofBytes then
        (Except.ok () : Except QoiErr Unit) else .error .invalidEOF) = _
    simp [eofBytes]
  rcases src with _ | ⟨a3, src⟩
  · show (if ([a1, a2, 0, 0, 0, 0, 0, 0] : List Nat) = eofBytes then
        (Except.ok () : Except QoiErr Unit) else .error .invalidEOF) = _
    simp [eofBytes]
  rcases src with _ | ⟨a4, src⟩
  · show (if ([a1, a2, a3, 0, 0, 0, 0, 0] : List Nat) = eofBytes then
        (Except.ok () : Except QoiErr Unit) else .error .invalidEOF) = _
    simp [eofBytes]
  rcases src with _ | ⟨a5, src⟩
  · show (if ([a1, a2, a3, a4, 0, 0, 0, 0] : List Nat) = eofBytes then
        (Except.ok () : Except QoiErr Unit) else .error .invalidEOF) = _
    simp [eofBytes]
  rcases src with _ | ⟨a6, src⟩
  · show (if ([a1, a2, a3, a4, a5, 0, 0, 0] : List Nat) = eofBytes then
        (Except.ok () : Except QoiErr Unit) else .error .invalidEOF) = _
    simp [eofBytes]
  rcases src with _ | ⟨a7, src⟩
  · show (if ([a1, a2, a3, a4, a5, a6, 0, 0] : List Nat) = eofBytes then
        (Except.ok () : Except QoiErr Unit) else .error .invalidEOF) = _
    simp [eofBytes]
  rcases src with _ | ⟨a8, src⟩
  · show (if ([a1, a2, a3, a4, a5, a6, a7, 0] : List Nat) = eofBytes then
        (Except.ok () : Except QoiErr Unit) else .error .invalidEOF) = _
    simp [eofBytes]
  · show (if ([a1, a2, a3, a4, a5, a6, a7, a8] : List Nat) = eofBytes then
        (Except.ok () : Except QoiErr Unit) else .error .invalidEOF) = _
    simp [eofBytes]

/-- When width × height = 0 the pixel loop is skipped entirely — no op-code
byte is read — and the result is decided by the end-marker check alone. -/
theorem decodePixels_zero (src : List Nat) (w h : Nat) (hwh : w * h = 0) :
    decodePixels src w h =
      if src.take 8 = eofBytes then .ok []
      else if src = [] then .error .unexpectedEnd
      else .error .invalidEOF := by
  unfold decodePixels
  rw [hwh]
  show (match eofCheck (initSt src) with
    | Except.error e => (Except.error e : Except QoiErr (List Pix))
    | Except.ok _ => Except.ok []) = _
  rw [eofCheck_init src]
  by_cases h8 : src.take 8 = eofBytes
  · rw [if_pos h8, if_pos h8]
  · rw [if_neg h8, if_neg h8]
    by_cases hnil : src = []
    · rw [if_pos hnil, if_pos hnil]
    · rw [if_neg hnil, if_neg hnil]

/-- C10: if the parsed header has width 0 or height 0, `Decode` reads no
op-code bytes: it succeeds with an empty pixel buffer if and only if the
8 bytes immediately following the 14-byte header equal the end marker, and
otherwise fails with UnexpectedEnd (no byte after the header) or
InvalidEOF. -/
theorem zero_size_header_decode (b4 b5 b6 b7 b8 b9 b10 b11 ch cs : Nat)
    (rest : List Nat)
    (h : beU32 b4 b5 b6 b7 = 0 ∨ beU32 b8 b9 b10 b11 = 0) :
    Decode (magicBytes ++ [b4, b5, b6, b7, b8, b9, b10, b11, ch, cs] ++ rest) =
      if rest.take 8 = eofBytes then .ok []
      else if rest = [] then .error .unexpectedEnd
      else .error .invalidEOF := by
  rw [Decode_header]
  rcases h with hw | hh
  · exact decodePixels_zero rest _ _ (by rw [hw, Nat.zero_mul])
  · exact decodePixels_zero rest _ _ (by rw [hh, Nat.mul_zero])

/-- Witness for C10: a 5×0 image whose header is followed by exactly the
end marker decodes to the empty buffer. -/
theorem zero_size_header_decode_witness :
    Decode (magicBytes ++ [0, 0, 0, 5, 0, 0, 0, 0, 3, 0] ++ eofBytes) =
      .ok [] := by
  have h := zero_size_header_decode 0 0 0 5 0 0 0 0 3 0 eofBytes (Or.inr rfl)
  rw [h]
  rfl

end QOI
